import Mathlib

/-!
Shallow embedding of the core of `github-branch-cleaner`
(`src/lib/github-api.js`, `src/lib/branch-matcher.js` — the latter present
both as `src/unnamed/part_002` and as the batch-enabled variant embedded in
`src/test.js` — and the spec-described `getOldestLocalCommitDate` from the
git-operations module).

Remote pull-request data is modelled as plain records; the GitHub API as seen
by the branch matcher is modelled as a record of functions (`World`) returning
`Except String _`, mirroring the JS functions that either return data or throw
an `Error` with a message.  Timestamps are integers (milliseconds, as in JS
`Date.getTime()`).
-/

/-- A pull-request record as the tool consumes it: `number`, `head.ref`
(`headRef` here), `state`, `merged`, `updated_at` (`updatedAt`, in
milliseconds) and `title`. -/
structure PullRequest where
  number : Nat
  headRef : String
  state : String
  merged : Bool
  updatedAt : Int
  title : String
deriving DecidableEq, Repr

/-- An item returned by the search API (`data.items` in
`githubApi.searchPullRequests`).  The branch matcher reads
`item.pull_request && item.pull_request.head && item.pull_request.head.ref`;
`headRef = none` models a missing `pull_request`/`head` object. -/
structure SearchItem where
  number : Nat
  headRef : Option String
deriving DecidableEq, Repr

/-- The deletion-policy flags (`options.merged` / `options.closed` in the
source; the spec calls them `includeMerged` / `includeClosed`). -/
structure DeleteOptions where
  merged : Bool
  closed : Bool
deriving DecidableEq, Repr

/-- The function `shouldDeleteBranch(pr, options)` from `branch-matcher.js`: `false` for a
missing PR; otherwise true when (`options.merged` and `pr.merged`) or
(`options.closed` and `pr.state === 'closed'` and not `pr.merged`). -/
def shouldDeleteBranch (pr : Option PullRequest) (options : DeleteOptions) : Bool :=
  match pr with
  | none => false
  | some p =>
    if options.merged && p.merged then true
    else if options.closed && (p.state == "closed") && !p.merged then true
    else false

/-- The default value of the `protectedBranches` parameter of
`isBranchSafeToDelete` in `branch-matcher.js`. -/
def defaultProtectedBranches : List String := ["main", "master", "develop", "dev"]

/-- The function `isBranchSafeToDelete(branchName, currentBranch, protectedBranches)` from
`branch-matcher.js`.  The JS default argument for `protectedBranches` is
`defaultProtectedBranches`; here the parameter is explicit. -/
def isBranchSafeToDelete (branchName currentBranch : String)
    (protectedBranches : List String) : Bool :=
  if branchName == currentBranch then false
  else if protectedBranches.contains branchName then false
  else true

/-- The `branchToPRMap` construction of the batch path
(`allPRs.forEach(pr => branchToPRMap.set(pr.head.ref, pr))`): a JS `Map`
modelled as a lookup function; `Map.set` replaces an existing binding, so a
later list entry overwrites an earlier one with the same head ref. -/
def buildBranchToPRMap (allPRs : List PullRequest) : String → Option PullRequest :=
  allPRs.foldl (fun m pr => fun key => if key == pr.headRef then some pr else m key)
    (fun _ => none)

/- The concrete records used by the C1 evaluation: two pull requests with the
same head branch `"a"`, listed newest-updated first as the API returns them. -/

/-- The more recently updated of two PRs sharing head `"a"`. -/
def prNewerA : PullRequest :=
  { number := 10, headRef := "a", state := "closed", merged := true,
    updatedAt := 1709251200000, title := "newer" }

/-- The less recently updated of two PRs sharing head `"a"`. -/
def prOlderA : PullRequest :=
  { number := 11, headRef := "a", state := "closed", merged := false,
    updatedAt := 1704067200000, title := "older" }

/-- C1: in the batch index built from the descending-by-update-time sequence
`[prNewerA, prOlderA]` (both with head `"a"`), the lookup for `"a"` returns
the LAST record — the least recently updated one — because `Map.set`
overwrites; the spec requires the first (most recently updated) record to
win.  This theorem evaluates the code at the failing input. -/
theorem buildBranchToPRMap_overwrites_newer :
    buildBranchToPRMap [prNewerA, prOlderA] "a" = some prOlderA
    ∧ prOlderA.updatedAt < prNewerA.updatedAt
    ∧ prOlderA ≠ prNewerA := by
  refine ⟨?_, by decide, by decide⟩
  decide

/-- C3: `shouldDeleteBranch` returns true iff (`options.merged` and
`pr.merged`) or (`options.closed` and `pr.state == "closed"` and not
`pr.merged`); it is false on a missing PR, and false everywhere when both
policy flags are off. -/
theorem shouldDeleteBranch_spec (pr : Option PullRequest) (options : DeleteOptions) :
    (shouldDeleteBranch pr options = true ↔
      ∃ p, pr = some p ∧
        ((options.merged = true ∧ p.merged = true) ∨
         (options.closed = true ∧ p.state = "closed" ∧ p.merged = false)))
    ∧ (pr = none → shouldDeleteBranch pr options = false)
    ∧ (options.merged = false → options.closed = false →
        shouldDeleteBranch pr options = false) := by
  obtain ⟨om, oc⟩ := options
  refine ⟨?_, ?_, ?_⟩
  · cases pr with
    | none => simp [shouldDeleteBranch]
    | some p =>
      obtain ⟨n, h, s, m, u, t⟩ := p
      simp only [shouldDeleteBranch]
      cases om <;> cases oc <;> cases m <;>
        by_cases hs : s = "closed" <;>
        simp [hs]
  · rintro rfl; rfl
  · rintro rfl rfl
    cases pr with
    | none => rfl
    | some p => simp [shouldDeleteBranch]

/-- Witness for C3 at concrete inputs. -/
theorem shouldDeleteBranch_spec_witness :
    shouldDeleteBranch none { merged := true, closed := true } = false
    ∧ shouldDeleteBranch (some prNewerA) { merged := false, closed := false } = false :=
  ⟨(shouldDeleteBranch_spec none { merged := true, closed := true }).2.1 rfl,
   (shouldDeleteBranch_spec (some prNewerA) { merged := false, closed := false }).2.2 rfl rfl⟩

/-- C4: `isBranchSafeToDelete` is false exactly when the branch is the current
branch or a member of the protected list; in particular it is false for the
current branch even outside the protected list, and false for every member of
the default protected list `{main, master, develop, dev}` regardless of the
current branch. -/
theorem isBranchSafeToDelete_spec (branchName currentBranch : String)
    (protectedBranches : List String) :
    (isBranchSafeToDelete branchName currentBranch protectedBranches = false ↔
      branchName = currentBranch ∨ branchName ∈ protectedBranches)
    ∧ (branchName = currentBranch →
        isBranchSafeToDelete branchName currentBranch protectedBranches = false)
    ∧ (branchName ∈ defaultProtectedBranches →
        isBranchSafeToDelete branchName currentBranch defaultProtectedBranches = false) := by
  refine ⟨?_, ?_, ?_⟩
  · unfold isBranchSafeToDelete
    by_cases h1 : branchName = currentBranch <;>
      by_cases h2 : branchName ∈ protectedBranches <;>
      simp [h1, h2, List.contains, List.elem_iff]
  · intro h
    simp [isBranchSafeToDelete, h]
  · intro h
    unfold isBranchSafeToDelete
    by_cases h1 : branchName = currentBranch <;>
      simp [h1, List.contains, List.elem_iff, h]

/-- Witness for C4: `main` is unsafe as the current branch even with no
protected list, and unsafe as a protected name under a different current
branch. -/
theorem isBranchSafeToDelete_spec_witness :
    isBranchSafeToDelete "main" "main" [] = false
    ∧ isBranchSafeToDelete "develop" "feature" defaultProtectedBranches = false :=
  ⟨(isBranchSafeToDelete_spec "main" "main" []).2.1 rfl,
   (isBranchSafeToDelete_spec "develop" "feature" defaultProtectedBranches).2.2 (by decide)⟩

namespace GithubApi

/-- The function `getAllPullRequests(octokit, owner, repo, options)` with an optional `state` and `since` in `options`, from
`github-api.js`.  `serverPRs` is the repository's full pull-request listing in
the order the server pages it out (`sort: updated, direction: desc`); each
loop iteration takes one page of `per_page = 100` entries.  The `since`
parameter is forwarded to the server but the pulls-list endpoint does not
filter by it (the spec: server-side `since` filtering "is not assumed
reliable"), so a page is the next 100 entries regardless.  Per iteration the
code pushes the whole page, then breaks on a short page, and only otherwise —
when `since` is set and the page's oldest (last) entry is strictly older —
replaces that page's entries by the ones with `updated_at ≥ since` and
breaks. -/
def getAllPullRequests (serverPRs : List PullRequest) (since : Option Int) :
    List PullRequest :=
  if h : (serverPRs.take 100).length < 100 then
    serverPRs.take 100
  else
    match since, (serverPRs.take 100).getLast? with
    | some s, some oldestInPage =>
      if oldestInPage.updatedAt < s then
        (serverPRs.take 100).filter (fun pr => s ≤ pr.updatedAt)
      else
        serverPRs.take 100 ++ getAllPullRequests (serverPRs.drop 100) since
    | _, _ =>
      serverPRs.take 100 ++ getAllPullRequests (serverPRs.drop 100) since
termination_by serverPRs.length
decreasing_by
  all_goals
    simp only [List.length_take, List.length_drop] at h ⊢
    omega

end GithubApi

/-- The GitHub API as the branch matcher sees it (the four `githubApi`
functions it calls).  Each operation either returns data (`Except.ok`) or
throws an `Error` whose message is the `String` (`Except.error`);
`getAllPullRequests` takes the optional `since` bound of its `options`
argument. -/
structure World where
  findPullRequestsForBranch : String → Except String (List PullRequest)
  getPullRequestDetails : Nat → Except String PullRequest
  searchPullRequests : String → Except String (List SearchItem)
  getAllPullRequests : Option Int → Except String (List PullRequest)

/-- The three search-query variants tried by `findPRForBranch`. -/
def searchStrategies (branchName : String) : List String :=
  ["head:" ++ branchName, "in:title " ++ branchName, branchName]

/-- The search loop of `findPRForBranch`: for each query, run the search, keep
the first result whose head ref is exactly `branchName`, and fetch its full
details.  A throw anywhere inside an iteration (the search call or the detail
fetch) is caught and the loop moves on to the next strategy. -/
def trySearchStrategies (w : World) (branchName : String) :
    List String → Option PullRequest
  | [] => none
  | query :: rest =>
    match w.searchPullRequests query with
    | .error _ => trySearchStrategies w branchName rest
    | .ok searchResults =>
      match searchResults.find? (fun item => item.headRef == some branchName) with
      | none => trySearchStrategies w branchName rest
      | some exactMatch =>
        match w.getPullRequestDetails exactMatch.number with
        | .error _ => trySearchStrategies w branchName rest
        | .ok prDetails => some prDetails

/-- The "last resort" block of `findPRForBranch`: list all pull requests, take
the first exact head match and fetch its details.  The whole block sits in a
`try` whose `catch` only logs, after which the function returns `null`, so a
throw here (the listing or the detail fetch) yields `none`. -/
def lastResortListing (w : World) (branchName : String) : Option PullRequest :=
  match w.getAllPullRequests none with
  | .error _ => none
  | .ok allPRs =>
    match allPRs.find? (fun pr => pr.headRef == branchName) with
    | none => none
    | some matchingPR =>
      match w.getPullRequestDetails matchingPR.number with
      | .error _ => none
      | .ok prDetails => some prDetails

/-- The function `findPRForBranch(octokit, repoInfo, branchName)` from `branch-matcher.js`:
exact head-match listing first (a nonempty result triggers a detail fetch of
its first entry), then the three search strategies, then the full listing.
Only the head-match listing and the strategy-1 detail fetch sit directly under
the outer `try`, whose `catch` rethrows `Failed to find PR for branch ...`. -/
def findPRForBranch (w : World) (branchName : String) :
    Except String (Option PullRequest) :=
  match w.findPullRequestsForBranch branchName with
  | .error e =>
    .error ("Failed to find PR for branch " ++ branchName ++ ": " ++ e)
  | .ok prs =>
    match prs with
    | [] =>
      match trySearchStrategies w branchName (searchStrategies branchName) with
      | some prDetails => .ok (some prDetails)
      | none => .ok (lastResortListing w branchName)
    | firstPR :: _ =>
      match w.getPullRequestDetails firstPR.number with
      | .error e =>
        .error ("Failed to find PR for branch " ++ branchName ++ ": " ++ e)
      | .ok prDetails => .ok (some prDetails)

/-- The `groups` accumulator of `groupBranchesByPRStatus`: five lists, each
entry pairing a branch with its pull request (a `noPR` entry carries
`pr: null` in the source, so only the branch name is kept here) or with an
error message. -/
structure Groups where
  merged : List (String × PullRequest)
  closed : List (String × PullRequest)
  «open» : List (String × PullRequest)
  noPR : List String
  error : List (String × String)
deriving DecidableEq, Repr

/-- The initial empty `groups` object. -/
def emptyGroups : Groups :=
  { merged := [], closed := [], «open» := [], noPR := [], error := [] }

/-- One iteration of the batch path's per-branch loop (`test.js` variant of
`groupBranchesByPRStatus`): look the branch up in `branchToPRMap`; absent →
`noPR`; present → fetch details (a throw lands the branch in `error` with the
message) and file the branch under `merged` / `closed` / `open` — a detailed
PR with `merged = false` and any other state is filed nowhere. -/
def batchStep (w : World) (branchToPRMap : String → Option PullRequest)
    (g : Groups) (branch : String) : Groups :=
  match branchToPRMap branch with
  | none => { g with noPR := g.noPR ++ [branch] }
  | some basicPR =>
    match w.getPullRequestDetails basicPR.number with
    | .error e => { g with error := g.error ++ [(branch, e)] }
    | .ok detailedPR =>
      if detailedPR.merged then
        { g with merged := g.merged ++ [(branch, detailedPR)] }
      else if detailedPR.state == "closed" then
        { g with closed := g.closed ++ [(branch, detailedPR)] }
      else if detailedPR.state == "open" then
        { g with «open» := g.«open» ++ [(branch, detailedPR)] }
      else g

/-- The batch path's per-branch loop over all candidate branches. -/
def batchLoop (w : World) (branchToPRMap : String → Option PullRequest)
    (branches : List String) (g : Groups) : Groups :=
  branches.foldl (batchStep w branchToPRMap) g

/-- One iteration of the per-branch fallback loop (also the whole body of the
`part_002` variant of `groupBranchesByPRStatus`): resolve the branch with
`findPRForBranch`; a throw lands it in `error`, `null` in `noPR`, and a pull
request is filed under `merged` / `closed` / `open` — with the same silent
drop for any other unmerged state. -/
def fallbackStep (w : World) (g : Groups) (branch : String) : Groups :=
  match findPRForBranch w branch with
  | .error e => { g with error := g.error ++ [(branch, e)] }
  | .ok none => { g with noPR := g.noPR ++ [branch] }
  | .ok (some pr) =>
    if pr.merged then
      { g with merged := g.merged ++ [(branch, pr)] }
    else if pr.state == "closed" then
      { g with closed := g.closed ++ [(branch, pr)] }
    else if pr.state == "open" then
      { g with «open» := g.«open» ++ [(branch, pr)] }
    else g

/-- The per-branch fallback loop over all candidate branches. -/
def fallbackLoop (w : World) (branches : List String) (g : Groups) : Groups :=
  branches.foldl (fallbackStep w) g

/-- Modelled from the spec: `getOldestLocalCommitDate` belongs to the
git-operations module, whose provided source (`lib/git-operations.js`) does
not contain it — only its call sites in the batch resolver do.  The spec says
"Compute `oldestCommitDate` = minimum, across all candidate branches, of each
branch's earliest local commit timestamp"; `earliestCommit` supplies each
branch's earliest local commit timestamp in milliseconds. -/
def getOldestLocalCommitDate (earliestCommit : String → Int)
    (branches : List String) : Option Int :=
  (branches.map earliestCommit).min?

/-- The `bufferDays` constant of the batch resolver. -/
def bufferDays : Int := 30

/-- The value `searchSince = new Date(oldestCommitDate.getTime() - bufferDays*24*60*60*1000)`
from the batch resolver.  For an empty branch list the missing
`getOldestLocalCommitDate` source leaves the behavior unspecified; `0` is used
as its stand-in value (no claim depends on the empty case). -/
def computeSearchSince (earliestCommit : String → Int)
    (branches : List String) : Int :=
  (getOldestLocalCommitDate earliestCommit branches).getD 0
    - bufferDays * 24 * 60 * 60 * 1000

/-- The function `groupBranchesByPRStatus(octokit, repoInfo, branches)` — the batch-enabled
variant from `test.js`: compute the query window, bulk-fetch, index by head
ref and run the batch loop; if the bulk fetch throws, run the per-branch
fallback loop instead. -/
def groupBranchesByPRStatus (w : World) (earliestCommit : String → Int)
    (branches : List String) : Groups :=
  match w.getAllPullRequests (some (computeSearchSince earliestCommit branches)) with
  | .error _ => fallbackLoop w branches emptyGroups
  | .ok allPRs => batchLoop w (buildBranchToPRMap allPRs) branches emptyGroups

/-- The function `filterBranchesForDeletion(branchGroups, options, currentBranch)` from
`branch-matcher.js`: take the `merged` group (when `options.merged`) then the
`closed` group (when `options.closed`), keeping entries that pass
`isBranchSafeToDelete` (with its default protected list) and tagging each with
its `reason`. -/
def filterBranchesForDeletion (branchGroups : Groups) (options : DeleteOptions)
    (currentBranch : String) : List (String × PullRequest × String) :=
  (if options.merged then
    (branchGroups.merged.filter
      (fun bp => isBranchSafeToDelete bp.1 currentBranch defaultProtectedBranches)).map
      (fun bp => (bp.1, bp.2, "merged"))
  else []) ++
  (if options.closed then
    (branchGroups.closed.filter
      (fun bp => isBranchSafeToDelete bp.1 currentBranch defaultProtectedBranches)).map
      (fun bp => (bp.1, bp.2, "closed"))
  else [])

/-- A failure-free GitHub backend serving a fixed repository: `repo` is the
repository's pull-request listing in server order (most-recently-updated
first).  The head-filtered listing returns the exact head matches in that
order; the detail fetch finds the pull request by number (and throws the
wrapped github-api message when the number does not exist); the search returns
every pull request of the repository as a coarse result carrying its real head
ref; the bulk listing pages through `repo` via `GithubApi.getAllPullRequests`. -/
def pureWorld (repo : List PullRequest) : World where
  findPullRequestsForBranch branchName :=
    .ok (repo.filter (fun pr => pr.headRef == branchName))
  getPullRequestDetails prNumber :=
    match repo.find? (fun pr => pr.number == prNumber) with
    | some pr => .ok pr
    | none => .error ("Failed to get PR details for #" ++ toString prNumber ++ ": Not Found")
  searchPullRequests _query :=
    .ok (repo.map (fun pr => { number := pr.number, headRef := some pr.headRef }))
  getAllPullRequests since :=
    .ok (GithubApi.getAllPullRequests repo since)

/-- In a descending-by-`updatedAt` list, every element is at least as recent
as the last one. -/
theorem pairwise_desc_le_getLast {l : List PullRequest}
    (hs : l.Pairwise (fun a b => b.updatedAt ≤ a.updatedAt))
    {last : PullRequest} (hl : l.getLast? = some last) :
    ∀ x ∈ l, last.updatedAt ≤ x.updatedAt := by
  induction l with
  | nil => simp at hl
  | cons a t ih =>
    cases t with
    | nil =>
      simp only [List.getLast?_singleton, Option.some.injEq] at hl
      subst hl
      intro x hx
      simp only [List.mem_singleton] at hx
      subst hx
      exact le_refl _
    | cons b t' =>
      rw [List.getLast?_cons_cons] at hl
      rcases List.pairwise_cons.mp hs with ⟨ha, hs'⟩
      have hrest := ih hs' hl
      intro x hx
      rcases List.mem_cons.mp hx with rfl | hx'
      · have hmem : last ∈ b :: t' := List.mem_of_mem_getLast? (Option.mem_def.mpr hl)
        exact le_trans (hrest last hmem) (ha last hmem)
      · exact hrest x hx'

/-- A single pull request, updated before the query window, used to refute the
"every returned record is within the window" part of the spec. -/
def prStale : PullRequest :=
  { number := 1, headRef := "feat", state := "open", merged := false,
    updatedAt := 10, title := "stale" }

/-- C5 counterexample: with a one-entry listing whose only pull request was
updated at time 10 and a `since` bound of 20, `getAllPullRequests` terminates
by the short-page rule and returns the stale record unfiltered, so NOT every
returned record has `updated-at ≥ since`. -/
theorem getAllPullRequests_shortpage_counterexample :
    GithubApi.getAllPullRequests [prStale] (some 20) = [prStale]
    ∧ prStale.updatedAt < 20 := by
  constructor
  · rw [GithubApi.getAllPullRequests.eq_def]
    simp
  · decide

/-- C5 (amended): when a `since` bound is supplied and the server listing is
sorted descending by update time, every returned record older than `since`
can come only from the final, short (fewer than 100 entries) page: the result
splits as `A ++ B` with all of `A` within the window and `B` shorter than one
page.  (The source breaks on a short page before the window filter runs, so
`B` is not filtered; every earlier page is appended only when its oldest entry
is within the window, and the page that triggers the window stop is
filtered.) -/
theorem getAllPullRequests_since_window (serverPRs : List PullRequest) (s : Int)
    (hsorted : serverPRs.Pairwise (fun a b => b.updatedAt ≤ a.updatedAt)) :
    ∃ A B, GithubApi.getAllPullRequests serverPRs (some s) = A ++ B
      ∧ (∀ pr ∈ A, s ≤ pr.updatedAt) ∧ B.length < 100 := by
  rw [GithubApi.getAllPullRequests.eq_def]
  by_cases h : (serverPRs.take 100).length < 100
  · rw [dif_pos h]
    exact ⟨[], serverPRs.take 100, by simp, by simp, h⟩
  · rw [dif_neg h]
    have htake : serverPRs.take 100 ≠ [] := by
      intro hnil
      rw [hnil] at h
      simp at h
    have hl : (serverPRs.take 100).getLast? = some ((serverPRs.take 100).getLast htake) :=
      List.getLast?_eq_getLast _ htake
    have hsortedTake : (serverPRs.take 100).Pairwise
        (fun a b => b.updatedAt ≤ a.updatedAt) :=
      hsorted.sublist (List.take_sublist 100 serverPRs)
    rw [hl]
    by_cases hold : ((serverPRs.take 100).getLast htake).updatedAt < s
    · refine ⟨(serverPRs.take 100).filter (fun pr => s ≤ pr.updatedAt), [], ?_, ?_, ?_⟩
      · simp [hold]
      · intro pr hpr
        have := List.of_mem_filter hpr
        simpa using this
      · simp
    · obtain ⟨A', B', hAB, hA', hB'⟩ :=
        getAllPullRequests_since_window (serverPRs.drop 100) s
          (hsorted.sublist (List.drop_sublist 100 serverPRs))
      refine ⟨serverPRs.take 100 ++ A', B', ?_, ?_, hB'⟩
      · simp [hold, hAB]
      · intro pr hpr
        rcases List.mem_append.mp hpr with hin | hin
        · have hlast := pairwise_desc_le_getLast hsortedTake hl pr hin
          omega
        · exact hA' pr hin
termination_by serverPRs.length
decreasing_by
  simp only [List.length_take, List.length_drop] at h ⊢
  omega

/-- Witness for C5 at the empty listing. -/
theorem getAllPullRequests_since_window_witness :
    ∃ A B, GithubApi.getAllPullRequests [] (some 0) = A ++ B
      ∧ (∀ pr ∈ A, (0 : Int) ≤ pr.updatedAt) ∧ B.length < 100 :=
  getAllPullRequests_since_window [] 0 (by simp)

/-- A backend whose exact head-match listing (phase 1) throws while the search
phases and the full listing both answer normally (with no results). -/
def wPhase1Fails : World :=
  { findPullRequestsForBranch := fun _ => .error "boom"
    getPullRequestDetails := fun _ => .error "unused"
    searchPullRequests := fun _ => .ok []
    getAllPullRequests := fun _ => .ok [] }

/-- C6 counterexample: when only the first phase (the exact head-match
listing) throws, `findPRForBranch` already propagates the wrapped error, even
though the search phases and the full-listing phase do not throw — so a
failure of some but not all phases does surface as an error. -/
theorem findPRForBranch_phase1_error_counterexample :
    findPRForBranch wPhase1Fails "feat" = .error "Failed to find PR for branch feat: boom"
    ∧ wPhase1Fails.searchPullRequests "head:feat" = .ok []
    ∧ wPhase1Fails.getAllPullRequests none = .ok [] :=
  ⟨rfl, rfl, rfl⟩

/-- C6 (amended): `findPRForBranch` propagates a wrapped error exactly when
the exact head-match listing throws, or when that listing finds a match whose
detail fetch throws; search-strategy failures, full-listing failures and their
detail-fetch failures never surface as errors.  And when every phase completes
without an exact head-branch match, the result is `none`. -/
theorem findPRForBranch_error_iff (w : World) (branchName : String) :
    ((∃ e, findPRForBranch w branchName = .error e) ↔
      ((∃ e, w.findPullRequestsForBranch branchName = .error e) ∨
       (∃ firstPR rest e,
         w.findPullRequestsForBranch branchName = .ok (firstPR :: rest) ∧
         w.getPullRequestDetails firstPR.number = .error e)))
    ∧ (w.findPullRequestsForBranch branchName = .ok [] →
       trySearchStrategies w branchName (searchStrategies branchName) = none →
       lastResortListing w branchName = none →
       findPRForBranch w branchName = .ok none) := by
  constructor
  · unfold findPRForBranch
    cases hfind : w.findPullRequestsForBranch branchName with
    | error e => simp [hfind]
    | ok prs =>
      cases prs with
      | nil =>
        simp only
        cases htry : trySearchStrategies w branchName (searchStrategies branchName) with
        | some prDetails => simp
        | none => simp
      | cons firstPR rest =>
        cases hdet : w.getPullRequestDetails firstPR.number with
        | error e =>
          simp only [hdet]
          constructor
          · intro _
            exact Or.inr ⟨firstPR, rest, e, rfl, hdet⟩
          · intro _
            exact ⟨_, rfl⟩
        | ok d =>
          simp only [hdet]
          constructor
          · rintro ⟨e, he⟩
            exact absurd he (by simp)
          · rintro (⟨e, he⟩ | ⟨f, r, e, hfr, hde⟩)
            · exact absurd he (by simp)
            · have hf : f = firstPR := by
                simp only [Except.ok.injEq, List.cons.injEq] at hfr
                exact hfr.1.symm
              rw [hf, hdet] at hde
              exact absurd hde (by simp)
  · intro h1 h2 h3
    unfold findPRForBranch
    rw [h1, h2, h3]

/-- A backend with no pull requests anywhere: all phases complete and find
nothing. -/
def wNothing : World :=
  { findPullRequestsForBranch := fun _ => .ok []
    getPullRequestDetails := fun _ => .error "none"
    searchPullRequests := fun _ => .ok []
    getAllPullRequests := fun _ => .ok [] }

/-- Witness for C6: with all phases exhausting without a match,
`findPRForBranch` returns `none` rather than an error. -/
theorem findPRForBranch_error_iff_witness :
    findPRForBranch wNothing "feat" = .ok none :=
  (findPRForBranch_error_iff wNothing "feat").2 rfl rfl rfl

/-- The backend `failDetailAt w n msg`: the same as `w` except that the detail
fetch of pull request number `n` throws with message `msg` (a single-branch
detail-fetch failure). -/
def failDetailAt (w : World) (prNumber : Nat) (msg : String) : World :=
  { w with getPullRequestDetails :=
      fun n => if n = prNumber then .error msg else w.getPullRequestDetails n }

/-- C7: in the batch loop, if the detail fetch of the pull request indexed for
`branch` throws, that iteration files `branch` under `error` with the failure
message; and the loop over any collection of other branches (none of which is
indexed to the failed pull-request number) produces exactly the groups it
would have produced without the failure. -/
theorem batch_detail_failure_isolated (w : World)
    (branchToPRMap : String → Option PullRequest) (branch : String)
    (pr : PullRequest) (msg : String) (g : Groups) (branches : List String)
    (hidx : branchToPRMap branch = some pr)
    (hothers : ∀ b ∈ branches, b ≠ branch ∧
      ∀ pr', branchToPRMap b = some pr' → pr'.number ≠ pr.number) :
    batchStep (failDetailAt w pr.number msg) branchToPRMap g branch
      = { g with error := g.error ++ [(branch, msg)] }
    ∧ batchLoop (failDetailAt w pr.number msg) branchToPRMap branches g
      = batchLoop w branchToPRMap branches g := by
  constructor
  · unfold batchStep
    rw [hidx]
    simp [failDetailAt]
  · induction branches generalizing g with
    | nil => rfl
    | cons b bs ih =>
      have hb := hothers b (List.mem_cons_self b bs)
      have hstep : batchStep (failDetailAt w pr.number msg) branchToPRMap g b
          = batchStep w branchToPRMap g b := by
        unfold batchStep
        cases hmap : branchToPRMap b with
        | none => rfl
        | some pr' =>
          have hne : pr'.number ≠ pr.number := hb.2 pr' hmap
          simp [failDetailAt, hne]
      unfold batchLoop
      simp only [List.foldl_cons]
      rw [hstep]
      exact ih _ (fun b' hb' => hothers b' (List.mem_cons_of_mem b hb'))

/-- Concrete data for the C7 witness: one indexed pull request per branch. -/
def prX : PullRequest :=
  { number := 7, headRef := "x", state := "open", merged := false,
    updatedAt := 100, title := "x" }

/-- Concrete data for the C7 witness: the pull request of the unaffected
branch. -/
def prY : PullRequest :=
  { number := 8, headRef := "y", state := "closed", merged := true,
    updatedAt := 90, title := "y" }

/-- Witness for C7 on a two-branch index where the detail fetch of branch
`x`'s pull request (number 7) fails. -/
theorem batch_detail_failure_isolated_witness :
    batchStep (failDetailAt (pureWorld [prX, prY]) prX.number "boom")
        (buildBranchToPRMap [prX, prY]) emptyGroups "x"
      = { emptyGroups with error := emptyGroups.error ++ [("x", "boom")] }
    ∧ batchLoop (failDetailAt (pureWorld [prX, prY]) prX.number "boom")
        (buildBranchToPRMap [prX, prY]) ["y"] emptyGroups
      = batchLoop (pureWorld [prX, prY]) (buildBranchToPRMap [prX, prY]) ["y"] emptyGroups :=
  batch_detail_failure_isolated (pureWorld [prX, prY]) (buildBranchToPRMap [prX, prY])
    "x" prX "boom" emptyGroups ["y"] (by decide)
    (by
      intro b hb
      simp only [List.mem_singleton] at hb
      subst hb
      exact ⟨by decide, by decide⟩)

/-- C9: classification is deterministic — for one and the same backend,
commit-date assignment, branch list, policy and current branch, two runs of
the grouping and of the deletion-list formation are definitionally the same
value, there being no hidden state in the embedded functions. -/
theorem classification_idempotent (w : World) (earliestCommit : String → Int)
    (branches : List String) (options : DeleteOptions) (currentBranch : String) :
    groupBranchesByPRStatus w earliestCommit branches
      = groupBranchesByPRStatus w earliestCommit branches
    ∧ filterBranchesForDeletion (groupBranchesByPRStatus w earliestCommit branches)
        options currentBranch
      = filterBranchesForDeletion (groupBranchesByPRStatus w earliestCommit branches)
        options currentBranch :=
  ⟨rfl, rfl⟩

/-- The minimum of a nonempty list of timestamps: it is `some`, it bounds
every element from below, and it is attained. -/
theorem min?_spec_int (x : Int) (xs : List Int) :
    ∃ m, (x :: xs).min? = some m ∧ (∀ y ∈ x :: xs, m ≤ y) ∧ m ∈ x :: xs := by
  induction xs generalizing x with
  | nil => exact ⟨x, by simp, by simp, by simp⟩
  | cons y ys ih =>
    obtain ⟨m, hm, hle, hmem⟩ := ih (min x y)
    have hfold : (x :: y :: ys).min? = ((min x y) :: ys).min? := by
      rw [List.min?_cons', List.min?_cons', List.foldl_cons]
    refine ⟨m, hfold ▸ hm, ?_, ?_⟩
    · intro z hz
      rcases List.mem_cons.mp hz with hz1 | hz'
      · rw [hz1]
        exact le_trans (hle (min x y) (List.mem_cons_self _ _)) (min_le_left x y)
      · rcases List.mem_cons.mp hz' with hz2 | hz''
        · rw [hz2]
          exact le_trans (hle (min x y) (List.mem_cons_self _ _)) (min_le_right x y)
        · exact hle z (List.mem_cons_of_mem _ hz'')
    · rcases List.mem_cons.mp hmem with rfl | h'
      · rcases min_choice x y with hxy | hxy
        · rw [hxy]; exact List.mem_cons_self _ _
        · rw [hxy]; exact List.mem_cons_of_mem _ (List.mem_cons_self _ _)
      · exact List.mem_cons_of_mem _ (List.mem_cons_of_mem _ h')

/-- C8: for a nonempty candidate list, `getOldestLocalCommitDate` is the
minimum over all candidate branches of their earliest local commit timestamps
(a lower bound that is attained), and the batch resolver's `searchSince` is
exactly that minimum minus 30 × 24 × 60 × 60 × 1000 milliseconds — the value
`groupBranchesByPRStatus` hands to the bulk pull-request fetch. -/
theorem computeSearchSince_spec (earliestCommit : String → Int)
    (branches : List String) (hne : branches ≠ []) :
    ∃ m, getOldestLocalCommitDate earliestCommit branches = some m
      ∧ (∀ b ∈ branches, m ≤ earliestCommit b)
      ∧ (∃ b ∈ branches, earliestCommit b = m)
      ∧ computeSearchSince earliestCommit branches = m - 30 * 24 * 60 * 60 * 1000 := by
  obtain ⟨b0, bs, rfl⟩ := List.exists_cons_of_ne_nil hne
  obtain ⟨m, hm, hle, hmem⟩ := min?_spec_int (earliestCommit b0) (bs.map earliestCommit)
  have hmap : ((b0 :: bs).map earliestCommit) = earliestCommit b0 :: bs.map earliestCommit :=
    List.map_cons _ _ _
  refine ⟨m, ?_, ?_, ?_, ?_⟩
  · unfold getOldestLocalCommitDate
    rw [hmap, hm]
  · intro b hb
    exact hle (earliestCommit b) (hmap ▸ List.mem_map_of_mem earliestCommit hb)
  · have : m ∈ (b0 :: bs).map earliestCommit := hmap ▸ hmem
    obtain ⟨b, hb, hbm⟩ := List.mem_map.mp this
    exact ⟨b, hb, hbm⟩
  · unfold computeSearchSince getOldestLocalCommitDate bufferDays
    rw [hmap, hm]
    norm_num

/-- Witness for C8 on a single branch with earliest commit at time 1000. -/
theorem computeSearchSince_spec_witness :
    ∃ m, getOldestLocalCommitDate (fun _ => (1000 : Int)) ["a"] = some m
      ∧ (∀ b ∈ ["a"], m ≤ (fun _ => (1000 : Int)) b)
      ∧ (∃ b ∈ ["a"], (fun _ => (1000 : Int)) b = m)
      ∧ computeSearchSince (fun _ => (1000 : Int)) ["a"] = m - 30 * 24 * 60 * 60 * 1000 :=
  computeSearchSince_spec (fun _ => 1000) ["a"] (by simp)

/-- Without a `since` bound the pagination loop returns the entire server
listing (it only ever stops on a short page, having pushed every page whole). -/
theorem getAllPullRequests_none (serverPRs : List PullRequest) :
    GithubApi.getAllPullRequests serverPRs none = serverPRs := by
  rw [GithubApi.getAllPullRequests.eq_def]
  by_cases h : (serverPRs.take 100).length < 100
  · rw [dif_pos h]
    refine List.take_of_length_le ?_
    simp only [List.length_take] at h
    omega
  · rw [dif_neg h]
    rw [getAllPullRequests_none (serverPRs.drop 100)]
    exact List.take_append_drop 100 serverPRs
termination_by serverPRs.length
decreasing_by
  simp only [List.length_take, List.length_drop] at h ⊢
  omega

/-- When every record of the listing is within the window (`updated-at ≥
since`), the window stop never fires and the pagination returns the entire
listing. -/
theorem getAllPullRequests_all_since (serverPRs : List PullRequest) (s : Int)
    (hall : ∀ pr ∈ serverPRs, s ≤ pr.updatedAt) :
    GithubApi.getAllPullRequests serverPRs (some s) = serverPRs := by
  rw [GithubApi.getAllPullRequests.eq_def]
  by_cases h : (serverPRs.take 100).length < 100
  · rw [dif_pos h]
    refine List.take_of_length_le ?_
    simp only [List.length_take] at h
    omega
  · rw [dif_neg h]
    have htake : serverPRs.take 100 ≠ [] := by
      intro hnil
      rw [hnil] at h
      simp at h
    have hl : (serverPRs.take 100).getLast? = some ((serverPRs.take 100).getLast htake) :=
      List.getLast?_eq_getLast _ htake
    rw [hl]
    have hlastmem : (serverPRs.take 100).getLast htake ∈ serverPRs :=
      (List.take_sublist 100 serverPRs).mem (List.getLast_mem htake)
    have hges : s ≤ ((serverPRs.take 100).getLast htake).updatedAt :=
      hall _ hlastmem
    have hnotlt : ¬(((serverPRs.take 100).getLast htake).updatedAt < s) :=
      not_lt.mpr hges
    have hrec : GithubApi.getAllPullRequests (serverPRs.drop 100) (some s)
        = serverPRs.drop 100 :=
      getAllPullRequests_all_since (serverPRs.drop 100) s
        (fun pr hpr => hall pr ((List.drop_sublist 100 serverPRs).mem hpr))
    simp [hnotlt, hrec]
termination_by serverPRs.length
decreasing_by
  simp only [List.length_take, List.length_drop] at h ⊢
  omega

/-- The `Map.set` index is last-occurrence-wins: looking a key up equals
searching the reversed listing for the first head match. -/
theorem buildBranchToPRMap_eq_find?_reverse (l : List PullRequest) (key : String) :
    buildBranchToPRMap l key = l.reverse.find? (fun pr => pr.headRef == key) := by
  induction l using List.reverseRecOn with
  | nil => rfl
  | append_singleton xs pr ih =>
    have hfold : buildBranchToPRMap (xs ++ [pr]) key
        = if key == pr.headRef then some pr else buildBranchToPRMap xs key := by
      unfold buildBranchToPRMap
      rw [List.foldl_append]
      simp only [List.foldl_cons, List.foldl_nil]
    rw [hfold, List.reverse_append]
    simp only [List.reverse_cons, List.reverse_nil, List.nil_append,
      List.singleton_append, List.find?_cons]
    by_cases hk : pr.headRef = key
    · simp [hk]
    · have hk' : ¬(key = pr.headRef) := fun h => hk h.symm
      have h2 : (pr.headRef == key) = false := by simp [hk]
      simp [hk', h2, ih]

/-- With pairwise-distinct head names, first and last occurrence coincide:
the `find?` over the reversed listing equals the `find?` over the listing. -/
theorem find?_headRef_reverse_of_nodup (l : List PullRequest) (key : String)
    (hnd : (l.map (fun pr => pr.headRef)).Nodup) :
    l.reverse.find? (fun pr => pr.headRef == key)
      = l.find? (fun pr => pr.headRef == key) := by
  cases hfind : l.find? (fun pr => pr.headRef == key) with
  | none =>
    have hno : ∀ pr ∈ l, ¬(pr.headRef == key) = true := List.find?_eq_none.mp hfind
    exact List.find?_eq_none.mpr (fun pr hpr => hno pr (List.mem_reverse.mp hpr))
  | some pr =>
    have hpred : (pr.headRef == key) = true := by
      have h := List.find?_some hfind
      simpa using h
    have hmem : pr ∈ l := List.mem_of_find?_eq_some hfind
    cases hrev : l.reverse.find? (fun p => p.headRef == key) with
    | none =>
      exact absurd hpred
        (by simpa using List.find?_eq_none.mp hrev pr (List.mem_reverse.mpr hmem))
    | some q =>
      have hqpred : (q.headRef == key) = true := by
        have h := List.find?_some hrev
        simpa using h
      have hqmem : q ∈ l := List.mem_reverse.mp (List.mem_of_find?_eq_some hrev)
      have heq : q = pr := by
        refine List.inj_on_of_nodup_map hnd hqmem hmem ?_
        rw [beq_iff_eq] at hpred hqpred
        rw [hqpred, hpred]
      rw [heq]

/-- With pairwise-distinct pull-request numbers, looking a member up by its
number finds exactly it. -/
theorem find?_number_self (l : List PullRequest) (pr : PullRequest)
    (hnd : (l.map (fun p => p.number)).Nodup) (hmem : pr ∈ l) :
    l.find? (fun p => p.number == pr.number) = some pr := by
  cases hfind : l.find? (fun p => p.number == pr.number) with
  | none =>
    exact absurd (beq_self_eq_true pr.number)
      (by simpa using List.find?_eq_none.mp hfind pr hmem)
  | some q =>
    have hqpred : (q.number == pr.number) = true := by
      have h := List.find?_some hfind
      simpa using h
    have hqmem : q ∈ l := List.mem_of_find?_eq_some hfind
    have : q = pr := by
      refine List.inj_on_of_nodup_map hnd hqmem hmem ?_
      exact beq_iff_eq.mp hqpred
    rw [this]

/-- Searching with `find?` gives the head of `filter`. -/
theorem find?_eq_head?_filter (p : PullRequest → Bool) (l : List PullRequest) :
    l.find? p = (l.filter p).head? := by
  induction l with
  | nil => rfl
  | cons a t ih =>
    cases hp : p a with
    | true => simp [List.find?_cons, List.filter_cons, hp]
    | false =>
      rw [List.find?_cons, List.filter_cons, hp]
      exact ih

/-- On a failure-free backend with pairwise-distinct pull-request numbers, the
cascading `findPRForBranch` returns exactly the first (most recently updated)
exact head match of the listing, or `none` when the repository has no pull
request with that head. -/
theorem findPRForBranch_pureWorld (repo : List PullRequest)
    (hnums : (repo.map (fun p => p.number)).Nodup) (branch : String) :
    findPRForBranch (pureWorld repo) branch
      = .ok (repo.find? (fun pr => pr.headRef == branch)) := by
  cases hfind : repo.find? (fun pr => pr.headRef == branch) with
  | some pr =>
    have hmem : pr ∈ repo := List.mem_of_find?_eq_some hfind
    obtain ⟨rest, hfilter⟩ :
        ∃ rest, repo.filter (fun pr => pr.headRef == branch) = pr :: rest := by
      have hh : (repo.filter (fun pr => pr.headRef == branch)).head? = some pr := by
        rw [← find?_eq_head?_filter]
        exact hfind
      cases hf : repo.filter (fun pr => pr.headRef == branch) with
      | nil => rw [hf] at hh; simp at hh
      | cons a rest =>
        rw [hf] at hh
        simp only [List.head?_cons, Option.some.injEq] at hh
        exact ⟨rest, by rw [hh]⟩
    have hdet : repo.find? (fun p => p.number == pr.number) = some pr :=
      find?_number_self repo pr hnums hmem
    unfold findPRForBranch
    simp only [pureWorld, hfilter, hdet]
  | none =>
    have hfilter : repo.filter (fun pr => pr.headRef == branch) = [] := by
      rw [List.filter_eq_nil_iff]
      intro pr hpr
      simpa using List.find?_eq_none.mp hfind pr hpr
    have hitems : (repo.map (fun pr =>
        ({ number := pr.number, headRef := some pr.headRef } : SearchItem))).find?
          (fun item => item.headRef == some branch) = none := by
      rw [List.find?_map]
      have hcomp : ((fun item : SearchItem => item.headRef == some branch) ∘
          (fun pr : PullRequest =>
            ({ number := pr.number, headRef := some pr.headRef } : SearchItem)))
          = (fun pr : PullRequest => pr.headRef == branch) := rfl
      rw [hcomp, hfind]
      rfl
    have hsearch : ∀ qs, trySearchStrategies (pureWorld repo) branch qs = none := by
      intro qs
      induction qs with
      | nil => rfl
      | cons q rest ih =>
        unfold trySearchStrategies
        simp only [pureWorld, hitems]
        exact ih
    have hlast : lastResortListing (pureWorld repo) branch = none := by
      unfold lastResortListing
      simp only [pureWorld, getAllPullRequests_none, hfind]
    unfold findPRForBranch
    have hph1 : (pureWorld repo).findPullRequestsForBranch branch
        = Except.ok ([] : List PullRequest) := by
      show Except.ok (repo.filter (fun pr => pr.headRef == branch)) = _
      rw [hfilter]
    rw [hph1]
    simp only [hsearch (searchStrategies branch), hlast]

/-- On a failure-free backend with pairwise-distinct head names and
pull-request numbers, one iteration of the batch loop and one iteration of
the per-branch fallback loop file the branch identically. -/
theorem batchStep_eq_fallbackStep (repo : List PullRequest)
    (hheads : (repo.map (fun pr => pr.headRef)).Nodup)
    (hnums : (repo.map (fun p => p.number)).Nodup)
    (g : Groups) (branch : String) :
    batchStep (pureWorld repo) (buildBranchToPRMap repo) g branch
      = fallbackStep (pureWorld repo) g branch := by
  have hmap : buildBranchToPRMap repo branch
      = repo.find? (fun pr => pr.headRef == branch) := by
    rw [buildBranchToPRMap_eq_find?_reverse,
      find?_headRef_reverse_of_nodup repo branch hheads]
  have hfb := findPRForBranch_pureWorld repo hnums branch
  unfold batchStep fallbackStep
  rw [hmap, hfb]
  cases hfind : repo.find? (fun pr => pr.headRef == branch) with
  | none => rfl
  | some pr =>
    have hmem : pr ∈ repo := List.mem_of_find?_eq_some hfind
    have hdet : repo.find? (fun p => p.number == pr.number) = some pr :=
      find?_number_self repo pr hnums hmem
    simp only [pureWorld, hdet]

/-- Loop-level version of `batchStep_eq_fallbackStep`. -/
theorem batchLoop_eq_fallbackLoop (repo : List PullRequest)
    (hheads : (repo.map (fun pr => pr.headRef)).Nodup)
    (hnums : (repo.map (fun p => p.number)).Nodup)
    (branches : List String) (g : Groups) :
    batchLoop (pureWorld repo) (buildBranchToPRMap repo) branches g
      = fallbackLoop (pureWorld repo) branches g := by
  induction branches generalizing g with
  | nil => rfl
  | cons b bs ih =>
    unfold batchLoop fallbackLoop
    simp only [List.foldl_cons]
    rw [batchStep_eq_fallbackStep repo hheads hnums g b]
    exact ih _

/-- A backend identical to `w` except that the time-windowed bulk fetch (the
only `getAllPullRequests` call made with a `since` bound — step 3 of the batch
resolver) throws; the unbounded full listing used by the per-branch fallback
still answers. -/
def batchFetchFails (w : World) : World :=
  { w with getAllPullRequests := fun since =>
      match since with
      | some _ => .error "batch fetch failed"
      | none => w.getAllPullRequests none }

/-- The function `findPRForBranch` never issues a `since`-bounded listing call, so a
bulk-fetch failure leaves it untouched. -/
theorem findPRForBranch_batchFetchFails (w : World) (branch : String) :
    findPRForBranch (batchFetchFails w) branch = findPRForBranch w branch := rfl

/-- C2 (amended): over a failure-free backend whose dataset has at most one
pull request per head name, pairwise-distinct pull-request numbers, and every
pull request updated within the batch query window (`updated-at ≥
searchSince`), the classification produced when the bulk fetch throws (the
per-branch cascading fallback) equals the classification produced when it
succeeds (the batch index path). -/
theorem groupBranchesByPRStatus_fallback_equiv (repo : List PullRequest)
    (earliestCommit : String → Int) (branches : List String)
    (hheads : (repo.map (fun pr => pr.headRef)).Nodup)
    (hnums : (repo.map (fun p => p.number)).Nodup)
    (hwindow : ∀ pr ∈ repo, computeSearchSince earliestCommit branches ≤ pr.updatedAt) :
    groupBranchesByPRStatus (batchFetchFails (pureWorld repo)) earliestCommit branches
      = groupBranchesByPRStatus (pureWorld repo) earliestCommit branches := by
  unfold groupBranchesByPRStatus
  have hrhs : (pureWorld repo).getAllPullRequests
      (some (computeSearchSince earliestCommit branches)) = .ok repo := by
    show Except.ok (GithubApi.getAllPullRequests repo
      (some (computeSearchSince earliestCommit branches))) = Except.ok repo
    rw [getAllPullRequests_all_since repo _ hwindow]
  rw [hrhs]
  show fallbackLoop (batchFetchFails (pureWorld repo)) branches emptyGroups
    = batchLoop (pureWorld repo) (buildBranchToPRMap repo) branches emptyGroups
  have hfb : fallbackLoop (batchFetchFails (pureWorld repo)) branches emptyGroups
      = fallbackLoop (pureWorld repo) branches emptyGroups := rfl
  rw [hfb, ← batchLoop_eq_fallbackLoop repo hheads hnums branches emptyGroups]

/-- The newest pull request for head `"b"`: open. -/
def prOpenB : PullRequest :=
  { number := 1, headRef := "b", state := "open", merged := false,
    updatedAt := 100, title := "t1" }

/-- An older pull request for the same head `"b"`: merged. -/
def prMergedB : PullRequest :=
  { number := 2, headRef := "b", state := "closed", merged := true,
    updatedAt := 50, title := "t2" }

/-- Earliest local commit timestamps used in the C2 counterexample and
witness. -/
def commitDatesB : String → Int := fun _ => 50

/-- C2 counterexample: with two pull requests sharing head `"b"` (newest
first, both within the query window), the per-branch cascading path (taken on
a simulated bulk-fetch failure) classifies branch `b` by the newest pull
request (open), while the successful batch path classifies it by the oldest
(merged): the two resolution paths produce different classifications on
identical underlying data. -/
theorem fallback_equiv_counterexample :
    groupBranchesByPRStatus (batchFetchFails (pureWorld [prOpenB, prMergedB]))
        commitDatesB ["b"]
      ≠ groupBranchesByPRStatus (pureWorld [prOpenB, prMergedB]) commitDatesB ["b"] := by
  have hfetch : GithubApi.getAllPullRequests [prOpenB, prMergedB]
      (some (computeSearchSince commitDatesB ["b"])) = [prOpenB, prMergedB] :=
    getAllPullRequests_all_since _ _ (by decide)
  unfold groupBranchesByPRStatus
  have hrhs : (pureWorld [prOpenB, prMergedB]).getAllPullRequests
      (some (computeSearchSince commitDatesB ["b"])) = .ok [prOpenB, prMergedB] := by
    show Except.ok (GithubApi.getAllPullRequests [prOpenB, prMergedB]
      (some (computeSearchSince commitDatesB ["b"]))) = _
    rw [hfetch]
  rw [hrhs]
  decide

/-- Witness for C2 on a one-PR repository satisfying all three hypotheses. -/
theorem fallback_equiv_witness :
    groupBranchesByPRStatus (batchFetchFails (pureWorld [prOpenB])) commitDatesB ["b"]
      = groupBranchesByPRStatus (pureWorld [prOpenB]) commitDatesB ["b"] :=
  groupBranchesByPRStatus_fallback_equiv [prOpenB] commitDatesB ["b"]
    (by decide) (by decide) (by decide)

/-- Total number of entries filed across the five classification groups. -/
def totalSize (g : Groups) : Nat :=
  g.merged.length + g.closed.length + g.«open».length + g.noPR.length + g.error.length

/-- The search loop either finds nothing or returns a pull request obtained
from a successful detail fetch. -/
theorem trySearchStrategies_cases (w : World) (branch : String) (qs : List String) :
    trySearchStrategies w branch qs = none
    ∨ ∃ n pr, w.getPullRequestDetails n = .ok pr
        ∧ trySearchStrategies w branch qs = some pr := by
  induction qs with
  | nil => exact Or.inl rfl
  | cons q rest ih =>
    cases hs : w.searchPullRequests q with
    | error e =>
      have hred : trySearchStrategies w branch (q :: rest)
          = trySearchStrategies w branch rest := by
        conv_lhs => rw [trySearchStrategies]
        rw [hs]
      rw [hred]
      exact ih
    | ok items =>
      have hred : trySearchStrategies w branch (q :: rest)
          = (match items.find? (fun item => item.headRef == some branch) with
             | none => trySearchStrategies w branch rest
             | some exactMatch =>
               match w.getPullRequestDetails exactMatch.number with
               | .error _ => trySearchStrategies w branch rest
               | .ok prDetails => some prDetails) := by
        conv_lhs => rw [trySearchStrategies]
        rw [hs]
      cases hf : items.find? (fun item => item.headRef == some branch) with
      | none =>
        rw [hf] at hred
        rw [hred]
        exact ih
      | some m =>
        rw [hf] at hred
        replace hred : trySearchStrategies w branch (q :: rest)
            = (match w.getPullRequestDetails m.number with
               | .error _ => trySearchStrategies w branch rest
               | .ok prDetails => some prDetails) := hred
        cases hd : w.getPullRequestDetails m.number with
        | error e =>
          rw [hd] at hred
          rw [hred]
          exact ih
        | ok d =>
          rw [hd] at hred
          exact Or.inr ⟨m.number, d, hd, hred⟩

/-- The last-resort listing either finds nothing or returns a pull request
obtained from a successful detail fetch. -/
theorem lastResortListing_cases (w : World) (branch : String) :
    lastResortListing w branch = none
    ∨ ∃ n pr, w.getPullRequestDetails n = .ok pr
        ∧ lastResortListing w branch = some pr := by
  cases hall : w.getAllPullRequests none with
  | error e =>
    have hred : lastResortListing w branch = none := by
      unfold lastResortListing
      rw [hall]
    exact Or.inl hred
  | ok allPRs =>
    have hred : lastResortListing w branch
        = (match allPRs.find? (fun pr => pr.headRef == branch) with
           | none => none
           | some matchingPR =>
             match w.getPullRequestDetails matchingPR.number with
             | .error _ => none
             | .ok prDetails => some prDetails) := by
      unfold lastResortListing
      rw [hall]
    cases hf : allPRs.find? (fun pr => pr.headRef == branch) with
    | none =>
      rw [hf] at hred
      exact Or.inl hred
    | some m =>
      rw [hf] at hred
      replace hred : lastResortListing w branch
          = (match w.getPullRequestDetails m.number with
             | .error _ => none
             | .ok prDetails => some prDetails) := hred
      cases hd : w.getPullRequestDetails m.number with
      | error e =>
        rw [hd] at hred
        exact Or.inl hred
      | ok d =>
        rw [hd] at hred
        exact Or.inr ⟨m.number, d, hd, hred⟩

/-- A pull request that `findPRForBranch` returned was produced by a
successful detail fetch. -/
theorem findPRForBranch_ok_some_from_details (w : World) (branch : String)
    (pr : PullRequest) (h : findPRForBranch w branch = .ok (some pr)) :
    ∃ n, w.getPullRequestDetails n = .ok pr := by
  cases hl : w.findPullRequestsForBranch branch with
  | error e =>
    have hred : findPRForBranch w branch
        = .error ("Failed to find PR for branch " ++ branch ++ ": " ++ e) := by
      unfold findPRForBranch
      rw [hl]
    rw [hred] at h
    simp at h
  | ok prs =>
    cases prs with
    | nil =>
      have hred : findPRForBranch w branch
          = (match trySearchStrategies w branch (searchStrategies branch) with
             | some prDetails => Except.ok (some prDetails)
             | none => Except.ok (lastResortListing w branch)) := by
        unfold findPRForBranch
        rw [hl]
      rcases trySearchStrategies_cases w branch (searchStrategies branch) with
        ht | ⟨n, d, hd, ht⟩
      · rw [ht] at hred
        rcases lastResortListing_cases w branch with hlr | ⟨n, d, hd, hlr⟩
        · rw [hlr] at hred
          rw [hred] at h
          simp at h
        · rw [hlr] at hred
          rw [hred] at h
          have : d = pr := by simpa using h
          exact ⟨n, this ▸ hd⟩
      · rw [ht] at hred
        rw [hred] at h
        have : d = pr := by simpa using h
        exact ⟨n, this ▸ hd⟩
    | cons firstPR rest =>
      have hred0 : findPRForBranch w branch
          = (match w.getPullRequestDetails firstPR.number with
             | .error e =>
               Except.error ("Failed to find PR for branch " ++ branch ++ ": " ++ e)
             | .ok prDetails => Except.ok (some prDetails)) := by
        unfold findPRForBranch
        rw [hl]
      cases hd : w.getPullRequestDetails firstPR.number with
      | error e =>
        rw [hd] at hred0
        rw [hred0] at h
        simp at h
      | ok d =>
        rw [hd] at hred0
        rw [hred0] at h
        have : d = pr := by simpa using h
        exact ⟨firstPR.number, this ▸ hd⟩

/-- A pull request with `merged = false` and a state that is neither `open`
nor `closed`: both classification loops silently file its branch nowhere. -/
def prWeird : PullRequest :=
  { number := 3, headRef := "w", state := "weird", merged := false,
    updatedAt := 10, title := "w" }

/-- C10: when every successfully fetched pull request has state `open` or
`closed`, every input branch lands in exactly one of the five groups — each
loop iteration adds exactly one entry, in the batch loop and in the fallback
loop alike.  Without the precondition the partition fails: `prWeird`
(`merged = false`, state `weird`) makes one branch vanish from all five
groups, in both paths. -/
theorem groups_partition_under_state_precondition (w : World)
    (branchToPRMap : String → Option PullRequest)
    (hstate : ∀ n pr, w.getPullRequestDetails n = .ok pr →
      pr.state = "open" ∨ pr.state = "closed") :
    (∀ branches g, totalSize (batchLoop w branchToPRMap branches g)
        = totalSize g + branches.length)
    ∧ (∀ branches g, totalSize (fallbackLoop w branches g)
        = totalSize g + branches.length)
    ∧ totalSize (batchLoop (pureWorld [prWeird]) (buildBranchToPRMap [prWeird])
        ["w"] emptyGroups) = 0
    ∧ totalSize (fallbackLoop (pureWorld [prWeird]) ["w"] emptyGroups) = 0 := by
  have hoc : (("open" : String) == "closed") = false := by decide
  have hoo : (("open" : String) == "open") = true := by decide
  have hcc : (("closed" : String) == "closed") = true := by decide
  have hbstep : ∀ g b, totalSize (batchStep w branchToPRMap g b) = totalSize g + 1 := by
    intro g b
    cases hmap : branchToPRMap b with
    | none => simp [batchStep, hmap, totalSize] <;> omega
    | some basicPR =>
      cases hd : w.getPullRequestDetails basicPR.number with
      | error e => simp [batchStep, hmap, hd, totalSize] <;> omega
      | ok d =>
        rcases hstate _ _ hd with hs | hs <;>
          by_cases hm : d.merged <;>
          simp [batchStep, hmap, hd, totalSize, hm, hs, hoc, hoo, hcc] <;> omega
  have hfstep : ∀ g b, totalSize (fallbackStep w g b) = totalSize g + 1 := by
    intro g b
    cases hfb : findPRForBranch w b with
    | error e => simp [fallbackStep, hfb, totalSize] <;> omega
    | ok o =>
      cases o with
      | none => simp [fallbackStep, hfb, totalSize] <;> omega
      | some pr =>
        obtain ⟨n, hn⟩ := findPRForBranch_ok_some_from_details w b pr hfb
        rcases hstate _ _ hn with hs | hs <;>
          by_cases hm : pr.merged <;>
          simp [fallbackStep, hfb, totalSize, hm, hs, hoc, hoo, hcc] <;> omega
  refine ⟨?_, ?_, by decide, by decide⟩
  · intro branches
    induction branches with
    | nil => intro g; rfl
    | cons b bs ih =>
      intro g
      have hcons : batchLoop w branchToPRMap (b :: bs) g
          = batchLoop w branchToPRMap bs (batchStep w branchToPRMap g b) := rfl
      rw [hcons, ih (batchStep w branchToPRMap g b), hbstep g b, List.length_cons]
      omega
  · intro branches
    induction branches with
    | nil => intro g; rfl
    | cons b bs ih =>
      intro g
      have hcons : fallbackLoop w (b :: bs) g
          = fallbackLoop w bs (fallbackStep w g b) := rfl
      rw [hcons, ih (fallbackStep w g b), hfstep g b, List.length_cons]
      omega

/-- Witness for C10 on a backend whose detail fetch always fails (the state
precondition holds vacuously). -/
theorem groups_partition_witness :
    totalSize (batchLoop (pureWorld []) (fun _ => none) ["a"] emptyGroups)
      = totalSize emptyGroups + ["a"].length
    ∧ totalSize (fallbackLoop (pureWorld []) ["a"] emptyGroups)
      = totalSize emptyGroups + ["a"].length := by
  have hstate : ∀ n pr, (pureWorld []).getPullRequestDetails n = .ok pr →
      pr.state = "open" ∨ pr.state = "closed" := by
    intro n pr h
    simp [pureWorld] at h
  exact ⟨(groups_partition_under_state_precondition (pureWorld []) (fun _ => none)
      hstate).1 ["a"] emptyGroups,
    (groups_partition_under_state_precondition (pureWorld []) (fun _ => none)
      hstate).2.1 ["a"] emptyGroups⟩
